import Mathlib

/-!
# PeaceMaker kernel: the image history filter

A shallow embedding of `PeaceMaker Kernel/ImageHistoryFilter.cpp`.

* Pool memory is a list of process history entries; the address of an entry is
  its index in that list, and a pointer that may be `NULL` is an `Option`.
* `ExAllocatePoolWithTag` does not zero a block. A field a routine never
  assigns keeps what the block held, which the host supplies; such a pointer
  field is a `Pointer`: `NULL`, a value the routines stored, or stale bits that
  address nothing (`wild`). Going through a wild pointer ends the run (`none`).
* The process history is the circular doubly linked list the source builds with
  `InitializeListHead` and `InsertTailList`, *the head being itself a record*;
  the `Flink` and `Blink` fields are kept explicitly and every traversal follows
  them, with a fuel argument standing for the number of loop iterations allowed.
* What the host answers during one callback (status codes, allocation results,
  the stack walker, the clock) is an argument of the routine.
* `USHORT` counters wrap modulo `2 ^ 16`.
* Push locks are not modelled: every routine runs atomically.
-/

set_option autoImplicit false
set_option maxRecDepth 20000

namespace PeaceMaker

/-! ## Host types and constants -/

abbrev HANDLE := Nat
abbrev WCHAR := Nat
abbrev NTSTATUS := Int
abbrev STACK_RETURN_INFO := Nat

def STATUS_SUCCESS : NTSTATUS := 0
def STATUS_BUFFER_OVERFLOW : NTSTATUS := 0x80000005 - 0x100000000
def STATUS_INFO_LENGTH_MISMATCH : NTSTATUS := 0xC0000004 - 0x100000000
def STATUS_INVALID_PARAMETER : NTSTATUS := 0xC000000D - 0x100000000
def STATUS_NO_MEMORY : NTSTATUS := 0xC0000017 - 0x100000000
def STATUS_BUFFER_TOO_SMALL : NTSTATUS := 0xC0000023 - 0x100000000
def STATUS_NOT_FOUND : NTSTATUS := 0xC0000225 - 0x100000000

/-- The `NT_SUCCESS` test of the host headers: a status is a success when, read
as a signed 32-bit value, it is not negative. -/
def NT_SUCCESS (status : NTSTATUS) : Bool := decide (0 ≤ status)

/-- Size of a wide character in bytes. -/
def sizeofWCHAR : Nat := 2

/-- The host constant `MAX_PATH`. -/
def MAX_PATH : Nat := 260

/-- Largest character count `ntstrsafe.h` accepts for a destination. -/
def NTSTRSAFE_MAX_CCH : Nat := 2147483647

/-- Largest character count `ntstrsafe.h` accepts for a counted string. -/
def NTSTRSAFE_UNICODE_STRING_MAX_CCH : Nat := 0xffff / sizeofWCHAR

/-- Number of values of a `USHORT`. -/
def USHORT_SIZE : Nat := 65536

/-- A counted wide string: `Length` and `MaximumLength` are byte counts. -/
structure UNICODE_STRING where
  Length : Nat
  MaximumLength : Nat
  Buffer : List WCHAR
deriving DecidableEq, Repr

/-- The source check of `ntstrsafe.h` (`RtlUnicodeStringValidateSrcWorker`):
both byte counts are even, the length is within the maximum length, and the
maximum length is within the limit of a counted string. -/
def RtlUnicodeStringValidateSrc (SourceString : UNICODE_STRING) : Bool :=
  SourceString.Length % sizeofWCHAR == 0
    && SourceString.MaximumLength % sizeofWCHAR == 0
    && decide (SourceString.Length ≤ SourceString.MaximumLength)
    && decide (SourceString.MaximumLength ≤ NTSTRSAFE_UNICODE_STRING_MAX_CCH * sizeofWCHAR)

/-- The host routine `RtlStringCbCopyUnicodeString (pszDest, cbDest, SourceString)`
of `ntstrsafe.h`, as documented: `cbDest` is the size of the destination in
*bytes* and has to hold the characters of the source and a terminating null.
The result is the status and what the destination holds afterwards (`none`: not
written).

* a destination of zero characters (or too many) is `STATUS_INVALID_PARAMETER`
  and nothing is written;
* an invalid source is `STATUS_INVALID_PARAMETER` and the destination is the
  empty string;
* otherwise characters are copied while there is room; when the room runs out
  the last character gives way to the terminating null and the status is
  `STATUS_BUFFER_OVERFLOW`. -/
def RtlStringCbCopyUnicodeString (cbDest : Nat) (SourceString : UNICODE_STRING) :
    NTSTATUS × Option (List WCHAR) :=
  let cchDest := cbDest / sizeofWCHAR
  if cchDest = 0 ∨ cchDest > NTSTRSAFE_MAX_CCH then
    (STATUS_INVALID_PARAMETER, none)
  else if RtlUnicodeStringValidateSrc SourceString = false then
    (STATUS_INVALID_PARAMETER, some [0])
  else
    let cchSrcLength := SourceString.Length / sizeofWCHAR
    let pszSrc := SourceString.Buffer.take cchSrcLength
    if cchSrcLength < cchDest then
      (STATUS_SUCCESS, some (pszSrc ++ [0]))
    else
      (STATUS_BUFFER_OVERFLOW, some (pszSrc.take (cchDest - 1) ++ [0]))

/-! ## Data model -/

/-- The link pair at the start of every list element. -/
structure LIST_ENTRY where
  Flink : Nat
  Blink : Nat
deriving DecidableEq, Repr

/-- A pointer field of a pool block: `NULL`, a value a routine stored there, or
the non-zero bits the block held when it was allocated, which address
nothing. -/
inductive Pointer (α : Type) where
  | null
  | valid (target : α)
  | wild (bits : Nat)
deriving DecidableEq, Repr

/-- What a pointer field reads before any routine assigns it: the bits the pool
block held. -/
def Pointer.ofBits {α : Type} (bits : Nat) : Pointer α :=
  if bits = 0 then .null else .wild bits

/-- A pointer a routine assigned from a value that may be `NULL`. -/
def Pointer.ofOption {α : Type} : Option α → Pointer α
  | none => .null
  | some a => .valid a

/-- One image loaded into a process. `ImageFileName` stands for the buffer of
the name: the copy made by `LoadImageNotifyRoutine`, or what the pool block
held when no name was supplied. -/
structure IMAGE_LOAD_HISTORY_ENTRY where
  ImageFileName : Pointer UNICODE_STRING
  CallerStackHistory : List STACK_RETURN_INFO
  CallerStackHistorySize : Nat
deriving DecidableEq, Repr

/-- One observed process. `ImageLoadHistory` points at the head of the image
load list (the first image load entry); its target is the list in `Flink` order.
`AddProcessToHistory` assigns neither `ImageLoadHistory` nor, when the caller is
the parent, `CallerImageFileName`. -/
structure PROCESS_HISTORY_ENTRY where
  ListEntry : LIST_ENTRY
  CallerId : HANDLE
  ParentId : HANDLE
  ProcessId : HANDLE
  ProcessImageFileName : Option UNICODE_STRING
  ParentImageFileName : Option UNICODE_STRING
  CallerImageFileName : Pointer UNICODE_STRING
  EpochExecutionTime : Nat
  ProcessTerminated : Bool
  CallerStackHistory : List STACK_RETURN_INFO
  CallerStackHistorySize : Nat
  ImageLoadHistory : Pointer (List IMAGE_LOAD_HISTORY_ENTRY)
deriving DecidableEq, Repr

/-- One element of the array `GetProcessHistorySummary` fills. `ImageFileName`
is what the name buffer holds after the copy, `none` when it was not written. -/
structure PROCESS_SUMMARY_ENTRY where
  EpochExecutionTime : Nat
  ProcessId : HANDLE
  ProcessTerminated : Bool
  ImageFileName : Option (List WCHAR)
deriving DecidableEq, Repr

/-- The static state of the filter: pool memory, the list head and the teardown
flag. -/
structure ImageHistoryFilter where
  pool : List PROCESS_HISTORY_ENTRY
  ProcessHistoryHead : Option Nat
  destroying : Bool
deriving DecidableEq, Repr

/-- The filter before any event: no record, the head is `NULL`. -/
def ImageHistoryFilter.empty : ImageHistoryFilter :=
  { pool := [], ProcessHistoryHead := none, destroying := false }

/-- Write through a pointer: replace the entry at `addr` by `f` of it. -/
def poke (pool : List PROCESS_HISTORY_ENTRY) (addr : Nat)
    (f : PROCESS_HISTORY_ENTRY → PROCESS_HISTORY_ENTRY) : List PROCESS_HISTORY_ENTRY :=
  match pool[addr]? with
  | some e => pool.set addr (f e)
  | none => pool

/-- The host macro `InitializeListHead`: both links point at the head itself. -/
def InitializeListHead (pool : List PROCESS_HISTORY_ENTRY) (ListHead : Nat) :
    List PROCESS_HISTORY_ENTRY :=
  poke pool ListHead fun e => { e with ListEntry := { Flink := ListHead, Blink := ListHead } }

/-- The host macro `InsertTailList`: `Entry` is linked between the old last
element (`ListHead->Blink`) and `ListHead`. -/
def InsertTailList (pool : List PROCESS_HISTORY_ENTRY) (ListHead Entry : Nat) :
    List PROCESS_HISTORY_ENTRY :=
  match pool[ListHead]? with
  | none => pool
  | some h =>
    let Blink := h.ListEntry.Blink
    let pool1 := poke pool Entry fun e => { e with ListEntry := { Flink := ListHead, Blink := Blink } }
    let pool2 := poke pool1 Blink fun e => { e with ListEntry := { e.ListEntry with Flink := Entry } }
    poke pool2 ListHead fun e => { e with ListEntry := { e.ListEntry with Blink := Entry } }

/-! ## The process identity resolver -/

/-- What the host answers during one call of `GetProcessImageFileName`. The
block `ExAllocatePoolWithTag` returns is `none` for `NULL`; its content is
whatever the pool holds, since the routine passes `NULL, 0` to both queries. -/
structure ImageFileNameHost where
  lookupStatus : NTSTATUS
  openStatus : NTSTATUS
  sizeQueryStatus : NTSTATUS
  allocation : Option UNICODE_STRING
  queryStatus : NTSTATUS
deriving DecidableEq, Repr

/-- `ImageHistoryFilter::GetProcessImageFileName`: the returned flag and the
value left in `*ImageFileName`. -/
def GetProcessImageFileName (host : ImageFileNameHost) : Bool × Option UNICODE_STRING :=
  -- *ImageFileName = NULL;
  if NT_SUCCESS host.lookupStatus = false then
    (NT_SUCCESS host.lookupStatus, none)
  else if NT_SUCCESS host.openStatus = false then
    (NT_SUCCESS host.openStatus, none)
  else if host.sizeQueryStatus ≠ STATUS_INFO_LENGTH_MISMATCH
      ∧ host.sizeQueryStatus ≠ STATUS_BUFFER_TOO_SMALL
      ∧ host.sizeQueryStatus ≠ STATUS_BUFFER_OVERFLOW then
    -- goto Exit with the status of the size query and a NULL name
    (NT_SUCCESS host.sizeQueryStatus, none)
  else
    match host.allocation with
    | none => (NT_SUCCESS host.sizeQueryStatus, none)
    | some name =>
      if NT_SUCCESS host.queryStatus = false then
        (NT_SUCCESS host.queryStatus, none)
      else
        (NT_SUCCESS host.queryStatus, some name)

/-! ## Process creation and exit -/

/-- What the host answers during one call of `AddProcessToHistory`. The three
`stale` fields are what the block from `ExAllocatePoolWithTag` holds where the
routine does not assign it: the list links (written only when the record is
linked), the bits of `CallerImageFileName` and the bits of `ImageLoadHistory`.
`EpochExecutionTime` is what the field holds when the record is linked: the
clock, or what the block held where the assertion around the conversion is
compiled out. -/
structure CreateHost where
  entryAllocated : Bool
  staleListEntry : LIST_ENTRY
  staleCallerImageFileName : Nat
  staleImageLoadHistory : Nat
  currentProcessId : HANDLE
  EpochExecutionTime : Nat
  processName : ImageFileNameHost
  parentName : ImageFileNameHost
  callerName : ImageFileNameHost
  stackReturns : List STACK_RETURN_INFO
  stackAllocated : Bool
deriving DecidableEq, Repr

/-- `ImageHistoryFilter::AddProcessToHistory`. -/
def AddProcessToHistory (s : ImageHistoryFilter) (host : CreateHost)
    (ProcessId ParentId : HANDLE) : ImageHistoryFilter :=
  if s.destroying then s
  else if host.entryAllocated = false then s
  else
    let processName := GetProcessImageFileName host.processName
    if processName.1 = false then s
    else
      let parentName := GetProcessImageFileName host.parentName
      let callerName : Pointer UNICODE_STRING :=
        if host.currentProcessId ≠ ParentId then
          Pointer.ofOption (GetProcessImageFileName host.callerName).2
        else Pointer.ofBits host.staleCallerImageFileName
      if host.stackAllocated = false then s
      else
        let newProcessHistory := s.pool.length
        let entry : PROCESS_HISTORY_ENTRY :=
          { ListEntry := host.staleListEntry
            CallerId := host.currentProcessId
            ParentId := ParentId
            ProcessId := ProcessId
            ProcessImageFileName := processName.2
            ParentImageFileName := parentName.2
            CallerImageFileName := callerName
            EpochExecutionTime := host.EpochExecutionTime
            ProcessTerminated := false
            CallerStackHistory := host.stackReturns
            CallerStackHistorySize := host.stackReturns.length
            ImageLoadHistory := Pointer.ofBits host.staleImageLoadHistory }
        let pool := s.pool ++ [entry]
        match s.ProcessHistoryHead with
        | none =>
          { s with pool := InitializeListHead pool newProcessHistory
                   ProcessHistoryHead := some newProcessHistory }
        | some head =>
          { s with pool := InsertTailList pool head newProcessHistory }

/-- The loop of `TerminateProcessInHistory`, entered at `current`: `none` when
the fuel runs out or a pointer leaves the pool. -/
def terminateLoop (pool : List PROCESS_HISTORY_ENTRY) (head ProcessId : Nat) :
    Nat → Nat → Option (List PROCESS_HISTORY_ENTRY)
  | 0, _ => none
  | fuel + 1, current =>
    match pool[current]? with
    | none => none
    | some e =>
      if e.ProcessId = ProcessId then
        some (pool.set current { e with ProcessTerminated := true })
      else
        let next := e.ListEntry.Blink
        if next ≠ head then terminateLoop pool head ProcessId fuel next
        else some pool

/-- `ImageHistoryFilter::TerminateProcessInHistory`. -/
def TerminateProcessInHistory (fuel : Nat) (s : ImageHistoryFilter) (ProcessId : HANDLE) :
    Option ImageHistoryFilter :=
  if s.destroying then some s
  else
    match s.ProcessHistoryHead with
    | none => some s
    | some head =>
      match terminateLoop s.pool head ProcessId fuel head with
      | none => none
      | some pool => some { s with pool := pool }

/-! ## Image loads -/

/-- The search loop of `LoadImageNotifyRoutine`, entered at `current`: the value
of `currentProcessHistory` when the loop is left. -/
def findLoop (pool : List PROCESS_HISTORY_ENTRY) (head ProcessId : Nat) :
    Nat → Nat → Option Nat
  | 0, _ => none
  | fuel + 1, current =>
    match pool[current]? with
    | none => none
    | some e =>
      if e.ProcessId = ProcessId then some current
      else
        let next := e.ListEntry.Blink
        if next ≠ head then findLoop pool head ProcessId fuel next
        else some next

/-- What the host answers during one call of `LoadImageNotifyRoutine`.
`staleImageFileNameBuffer` is what the block of the new entry holds in
`ImageFileName.Buffer`, which the routine assigns only when a name is
supplied. -/
structure LoadHost where
  entryAllocated : Bool
  staleImageFileNameBuffer : Nat
  nameAllocated : Bool
  stackReturns : List STACK_RETURN_INFO
  stackAllocated : Bool
deriving DecidableEq, Repr

/-- `ImageHistoryFilter::LoadImageNotifyRoutine`. The result is `none` when the
fuel runs out or the routine goes through a pointer that addresses nothing: the
`ExFreePoolWithTag` of the clean up on a stale name buffer, or the
`InsertTailList` on a stale `ImageLoadHistory`. -/
def LoadImageNotifyRoutine (fuel : Nat) (s : ImageHistoryFilter) (host : LoadHost)
    (FullImageName : Option UNICODE_STRING) (ProcessId : HANDLE) : Option ImageHistoryFilter :=
  if s.destroying then some s
  else
    let found : Option (Option Nat) :=
      match s.ProcessHistoryHead with
      | none => some none
      | some head => (findLoop s.pool head ProcessId fuel head).map some
    match found with
    | none => none
    | some none => some s
    | some (some currentProcessHistory) =>
      if host.entryAllocated = false then some s
      else
        -- the name buffer of the new entry, and whether the status is still a success
        let named : Pointer UNICODE_STRING × Bool :=
          match FullImageName with
          | none => (Pointer.ofBits host.staleImageFileNameBuffer, true)
          | some name =>
            if host.nameAllocated = false then (.null, false)
            else
              let copy := RtlStringCbCopyUnicodeString (name.Length + 1) name
              (.valid { Length := name.Length + 1
                        MaximumLength := name.Length + 1
                        Buffer := copy.2.getD [] },
                NT_SUCCESS copy.1)
        if named.2 = false ∨ host.stackAllocated = false then
          -- Exit with a failure status: the name buffer is freed when it is not NULL
          match named.1 with
          | .wild _ => none
          | _ => some s
        else
          let newImageLoadHistory : IMAGE_LOAD_HISTORY_ENTRY :=
            { ImageFileName := named.1
              CallerStackHistory := host.stackReturns
              CallerStackHistorySize := host.stackReturns.length }
          match s.pool[currentProcessHistory]? with
          | none => none
          | some e =>
            match e.ImageLoadHistory with
            | .null =>
              some { s with pool := s.pool.set currentProcessHistory
                                      { e with ImageLoadHistory := .valid [newImageLoadHistory] } }
            | .valid entries =>
              some { s with pool := s.pool.set currentProcessHistory
                                      { e with ImageLoadHistory :=
                                                .valid (entries ++ [newImageLoadHistory]) } }
            | .wild _ => none

/-! ## The summary query -/

/-- One store into the caller's array: the slot index and what the slot holds
after the iteration that wrote it. -/
abbrev SummaryWrite := Nat × PROCESS_SUMMARY_ENTRY

/-- The block of `GetProcessHistorySummary` that fills one array element from
the record `e`: the status of the name copy (success when the record has no
name and nothing is copied) and what the element holds afterwards. -/
def fillSummary (e : PROCESS_HISTORY_ENTRY) : NTSTATUS × PROCESS_SUMMARY_ENTRY :=
  let summary : PROCESS_SUMMARY_ENTRY :=
    { EpochExecutionTime := e.EpochExecutionTime
      ProcessId := e.ProcessId
      ProcessTerminated := e.ProcessTerminated
      ImageFileName := none }
  match e.ProcessImageFileName with
  | some name =>
    let copy := RtlStringCbCopyUnicodeString MAX_PATH name
    (copy.1, { summary with ImageFileName := copy.2 })
  | none => (STATUS_SUCCESS, summary)

/-- The loop of `GetProcessHistorySummary`, entered at `current` with the two
counters and the stores made so far; the result is `actualFilledSummaries` and
the stores in the order they were made. -/
def summaryLoop (pool : List PROCESS_HISTORY_ENTRY) (head SkipCount MaxProcessSummaries : Nat) :
    Nat → Nat → Nat → Nat → List SummaryWrite → Option (Nat × List SummaryWrite)
  | 0, _, _, _, _ => none
  | fuel + 1, current, currentProcessIndex, actualFilledSummaries, writes =>
    match pool[current]? with
    | none => none
    | some e =>
      let next := e.ListEntry.Blink
      let index := (currentProcessIndex + 1) % USHORT_SIZE
      if currentProcessIndex ≥ SkipCount then
        let writes1 := writes ++ [(currentProcessIndex, (fillSummary e).2)]
        if NT_SUCCESS (fillSummary e).1 = false then
          -- break
          some (actualFilledSummaries, writes1)
        else
          let filled := (actualFilledSummaries + 1) % USHORT_SIZE
          if next ≠ head ∧ MaxProcessSummaries > filled then
            summaryLoop pool head SkipCount MaxProcessSummaries fuel next index filled writes1
          else some (filled, writes1)
      else
        if next ≠ head ∧ MaxProcessSummaries > actualFilledSummaries then
          summaryLoop pool head SkipCount MaxProcessSummaries fuel next index
            actualFilledSummaries writes
        else some (actualFilledSummaries, writes)

/-- `ImageHistoryFilter::GetProcessHistorySummary`: the returned count and the
stores made into `ProcessSummaries`. -/
def GetProcessHistorySummary (fuel : Nat) (s : ImageHistoryFilter)
    (SkipCount MaxProcessSummaries : Nat) : Option (Nat × List SummaryWrite) :=
  if s.destroying then some (0, [])
  else
    match s.ProcessHistoryHead with
    | none => some (0, [])
    | some head => summaryLoop s.pool head SkipCount MaxProcessSummaries fuel head 0 0 []

/-! ## Events -/

/-- One callback of the host, with what the host answers during it. -/
inductive Event where
  | create (ParentId ProcessId : HANDLE) (host : CreateHost)
  | exit (ParentId ProcessId : HANDLE)
  | imageLoad (FullImageName : Option UNICODE_STRING) (ProcessId : HANDLE) (host : LoadHost)
deriving DecidableEq, Repr

/-- `ImageHistoryFilter::CreateProcessNotifyRoutine`. -/
def CreateProcessNotifyRoutine (fuel : Nat) (s : ImageHistoryFilter) (host : CreateHost)
    (ParentId ProcessId : HANDLE) (Create : Bool) : Option ImageHistoryFilter :=
  if Create then some (AddProcessToHistory s host ProcessId ParentId)
  else TerminateProcessInHistory fuel s ProcessId

/-- A host answer for callbacks that ask the host nothing. -/
def ImageFileNameHost.unused : ImageFileNameHost :=
  { lookupStatus := STATUS_NOT_FOUND, openStatus := STATUS_NOT_FOUND,
    sizeQueryStatus := STATUS_NOT_FOUND, allocation := none, queryStatus := STATUS_NOT_FOUND }

/-- A host answer for callbacks that ask the host nothing. -/
def CreateHost.unused : CreateHost :=
  { entryAllocated := false, staleListEntry := { Flink := 0, Blink := 0 },
    staleCallerImageFileName := 0, staleImageLoadHistory := 0,
    currentProcessId := 0, EpochExecutionTime := 0,
    processName := ImageFileNameHost.unused, parentName := ImageFileNameHost.unused,
    callerName := ImageFileNameHost.unused, stackReturns := [], stackAllocated := false }

/-- Deliver one event to the callback the host would invoke. -/
def deliver (fuel : Nat) (s : ImageHistoryFilter) : Event → Option ImageHistoryFilter
  | .create ParentId ProcessId host => CreateProcessNotifyRoutine fuel s host ParentId ProcessId true
  | .exit ParentId ProcessId =>
    CreateProcessNotifyRoutine fuel s CreateHost.unused ParentId ProcessId false
  | .imageLoad FullImageName ProcessId host =>
    LoadImageNotifyRoutine fuel s host FullImageName ProcessId

/-- Deliver the events in order, starting from `s`. -/
def replay (fuel : Nat) : ImageHistoryFilter → List Event → Option ImageHistoryFilter
  | s, [] => some s
  | s, e :: rest =>
    match deliver fuel s e with
    | none => none
    | some s1 => replay fuel s1 rest

/-! ## Observations used by the statements -/

/-- The walk along `Flink` from `current` until the head comes up again: the
addresses met, in order. -/
def flinkWalk (pool : List PROCESS_HISTORY_ENTRY) (head : Nat) : Nat → Nat → Option (List Nat)
  | 0, _ => none
  | fuel + 1, current =>
    match pool[current]? with
    | none => none
    | some e =>
      let next := e.ListEntry.Flink
      if next ≠ head then (flinkWalk pool head fuel next).map (current :: ·)
      else some [current]

/-- The process records of the store in list order: the addresses met from the
head along `Flink`. -/
def processList (fuel : Nat) (s : ImageHistoryFilter) : Option (List Nat) :=
  match s.ProcessHistoryHead with
  | none => some []
  | some head => flinkWalk s.pool head fuel head

/-- The links the record at address `i` has in a circular list of `n` records
kept at addresses `0 .. n - 1` in insertion order. -/
def linkedAt (n i : Nat) (e : PROCESS_HISTORY_ENTRY) : Bool :=
  e.ListEntry.Flink == (if i + 1 = n then 0 else i + 1)
    && e.ListEntry.Blink == (if i = 0 then n - 1 else i - 1)

/-- Check `linkedAt` for the records of `l`, the first of them at address `i`. -/
def linksFrom (n : Nat) : Nat → List PROCESS_HISTORY_ENTRY → Bool
  | _, [] => true
  | i, e :: rest => linkedAt n i e && linksFrom n (i + 1) rest

/-- The shape every store built by `AddProcessToHistory` has: the head is `NULL`
exactly when there is no record, otherwise it is the first record allocated,
and the records are linked in a circle in insertion order. -/
def WellLinked (s : ImageHistoryFilter) : Bool :=
  (match s.pool with
    | [] => s.ProcessHistoryHead == none
    | _ :: _ => s.ProcessHistoryHead == some 0)
  && linksFrom s.pool.length 0 s.pool

/-- The order in which a walk from the head along `Blink` meets the records
`r0 .. r(n-1)`: the head `r0` first, then `r(n-1)` down to `r1`. -/
def blinkOrder : List PROCESS_HISTORY_ENTRY → List PROCESS_HISTORY_ENTRY
  | [] => []
  | r0 :: rest => r0 :: rest.reverse

/-- The image path of a record is passed by the name copy of
`GetProcessHistorySummary`: it is a valid counted string and its characters and
the terminating null fit the `MAX_PATH` bytes the copy is given. -/
def fitsSummaryBuffer (name : UNICODE_STRING) : Bool :=
  RtlUnicodeStringValidateSrc name
    && decide (name.Length / sizeofWCHAR < MAX_PATH / sizeofWCHAR)

/-- The child image path of a create event resolved. -/
def childResolved : Event → Bool
  | .create _ _ host => (GetProcessImageFileName host.processName).1
  | _ => false

/-- The allocations `AddProcessToHistory` makes itself succeed. -/
def allocationsSucceed : Event → Bool
  | .create _ _ host => host.entryAllocated && host.stackAllocated
  | _ => true

/-- The loop of `GetProcessHistorySummary` run over the records in the order
the walk meets them, the list standing for the records still ahead. -/
def summarize (SkipCount MaxProcessSummaries : Nat) :
    List PROCESS_HISTORY_ENTRY → Nat → Nat → List SummaryWrite → Nat × List SummaryWrite
  | [], _, actualFilledSummaries, writes => (actualFilledSummaries, writes)
  | e :: rest, currentProcessIndex, actualFilledSummaries, writes =>
    let index := (currentProcessIndex + 1) % USHORT_SIZE
    if currentProcessIndex ≥ SkipCount then
      let writes1 := writes ++ [(currentProcessIndex, (fillSummary e).2)]
      if NT_SUCCESS (fillSummary e).1 = false then
        (actualFilledSummaries, writes1)
      else
        let filled := (actualFilledSummaries + 1) % USHORT_SIZE
        if rest ≠ [] ∧ MaxProcessSummaries > filled then
          summarize SkipCount MaxProcessSummaries rest index filled writes1
        else (filled, writes1)
    else
      if rest ≠ [] ∧ MaxProcessSummaries > actualFilledSummaries then
        summarize SkipCount MaxProcessSummaries rest index actualFilledSummaries writes
      else (actualFilledSummaries, writes)

/-- The stores the loop makes for the records of a list, the first of them at
slot `i`, when every name copy succeeds. -/
def slotsFrom : Nat → List PROCESS_HISTORY_ENTRY → List SummaryWrite
  | _, [] => []
  | i, e :: rest => (i, (fillSummary e).2) :: slotsFrom (i + 1) rest

/-- The record has no image path or one that `fitsSummaryBuffer`. -/
def pathFits (e : PROCESS_HISTORY_ENTRY) : Bool :=
  match e.ProcessImageFileName with
  | some name => fitsSummaryBuffer name
  | none => true

/-- The pointer `ImageLoadHistory` of the record is `NULL` or the head of a
list, not stale bits. -/
def notWild (e : PROCESS_HISTORY_ENTRY) : Bool :=
  match e.ImageLoadHistory with
  | .wild _ => false
  | _ => true

/-- No record of the pool holds stale bits in `ImageLoadHistory`. -/
def cleanPool (pool : List PROCESS_HISTORY_ENTRY) : Bool :=
  pool.all notWild

/-- The pool block the host hands out during the event reads zero in the
pointer field the routine leaves unassigned and later goes through:
`ImageLoadHistory` for a create event, the name buffer for an image load. -/
def zeroedPool : Event → Bool
  | .create _ _ host => host.staleImageLoadHistory == 0
  | .exit _ _ => true
  | .imageLoad _ _ host => host.staleImageFileNameBuffer == 0

/-! ## Sample data -/

/-- A counted string holding exactly `chars`. -/
def sampleName (chars : List WCHAR) : UNICODE_STRING :=
  { Length := sizeofWCHAR * chars.length
    MaximumLength := sizeofWCHAR * chars.length
    Buffer := chars }

/-- A host on which the image path resolves to `name`. -/
def resolvesTo (name : UNICODE_STRING) : ImageFileNameHost :=
  { lookupStatus := STATUS_SUCCESS, openStatus := STATUS_SUCCESS,
    sizeQueryStatus := STATUS_INFO_LENGTH_MISMATCH, allocation := some name,
    queryStatus := STATUS_SUCCESS }

/-- A create event the parent raises itself, every allocation succeeding, the
child path resolving to `chars`, on a pool block that holds stale list links
and the bits `stale` where `ImageLoadHistory` lies. -/
def sampleCreateOn (stale : Nat) (ParentId ProcessId : HANDLE) (chars : List WCHAR) : Event :=
  .create ParentId ProcessId
    { entryAllocated := true, staleListEntry := { Flink := 57005, Blink := 48879 },
      staleCallerImageFileName := 0, staleImageLoadHistory := stale,
      currentProcessId := ParentId, EpochExecutionTime := 1000 + ProcessId,
      processName := resolvesTo (sampleName chars), parentName := ImageFileNameHost.unused,
      callerName := ImageFileNameHost.unused, stackReturns := [], stackAllocated := true }

/-- The create event `sampleCreateOn` on a block that reads zero where
`ImageLoadHistory` lies. -/
def sampleCreate (ParentId ProcessId : HANDLE) (chars : List WCHAR) : Event :=
  sampleCreateOn 0 ParentId ProcessId chars

/-- A host on which every allocation of `LoadImageNotifyRoutine` succeeds, the
block of the new entry reading zero where the name buffer lies. -/
def sampleLoadHost : LoadHost :=
  { entryAllocated := true, staleImageFileNameBuffer := 0, nameAllocated := true,
    stackReturns := [], stackAllocated := true }

/-- The characters of `p.exe`. -/
def p_exe : List WCHAR := [112, 46, 101, 120, 101]

/-- The characters of `a.dll`. -/
def a_dll : List WCHAR := [97, 46, 100, 108, 108]

/-- The store after `create (4 -> 100, p.exe)`. -/
def oneRecord : ImageHistoryFilter :=
  (replay 1 ImageHistoryFilter.empty [sampleCreate 4 100 p_exe]).getD ImageHistoryFilter.empty

/-- The store after `create (4 -> 100)`, `exit 100`, `create (4 -> 100)`: the
identifier 100 is reused and the older record is the head. -/
def reusedPid : ImageHistoryFilter :=
  (replay 2 ImageHistoryFilter.empty
    [sampleCreate 4 100 [97], .exit 4 100, sampleCreate 4 100 [98]]).getD ImageHistoryFilter.empty

/-- The store after ten create events, for the processes 100 to 109. -/
def tenRecords : ImageHistoryFilter :=
  (replay 10 ImageHistoryFilter.empty
    ((List.range 10).map fun i => sampleCreate 4 (100 + i) [65 + i])).getD ImageHistoryFilter.empty

/-- A host on which the size query itself reports success. -/
def sizeQuerySucceeds : ImageFileNameHost :=
  { lookupStatus := STATUS_SUCCESS, openStatus := STATUS_SUCCESS,
    sizeQueryStatus := STATUS_SUCCESS, allocation := none, queryStatus := STATUS_SUCCESS }

/-- A create host whose child path query is `sizeQuerySucceeds`. -/
def createWithoutName : CreateHost :=
  { entryAllocated := true, staleListEntry := { Flink := 57005, Blink := 48879 },
    staleCallerImageFileName := 0, staleImageLoadHistory := 0,
    currentProcessId := 4, EpochExecutionTime := 1000,
    processName := sizeQuerySucceeds, parentName := ImageFileNameHost.unused,
    callerName := ImageFileNameHost.unused, stackReturns := [], stackAllocated := true }

/-- A store whose teardown flag is set, holding one record. -/
def tornDown : ImageHistoryFilter := { oneRecord with destroying := true }

/-! ## The shape of the list and the summary loop -/

theorem linksFrom_lookup (n : Nat) (l : List PROCESS_HISTORY_ENTRY) :
    ∀ i, linksFrom n i l = true → ∀ j e, l[j]? = some e → linkedAt n (i + j) e = true := by
  induction l with
  | nil => intro i _ j e h; simp at h
  | cons a rest ih =>
    intro i h j e hj
    simp only [linksFrom, Bool.and_eq_true] at h
    cases j with
    | zero =>
      simp at hj
      subst hj
      simpa using h.1
    | succ j =>
      simp at hj
      have := ih (i + 1) h.2 j e hj
      rwa [Nat.add_assoc, Nat.add_comm 1 j] at this

theorem linksFrom_of_lookup (n : Nat) (l : List PROCESS_HISTORY_ENTRY) :
    ∀ i, (∀ j e, l[j]? = some e → linkedAt n (i + j) e = true) → linksFrom n i l = true := by
  induction l with
  | nil => intro i _; rfl
  | cons a rest ih =>
    intro i h
    simp only [linksFrom, Bool.and_eq_true]
    refine ⟨by simpa using h 0 a (by simp), ih (i + 1) ?_⟩
    intro j e hj
    have := h (j + 1) e (by simpa using hj)
    rwa [Nat.add_assoc, Nat.add_comm 1 j]

theorem linkedAt_blink {n i : Nat} {e : PROCESS_HISTORY_ENTRY} (h : linkedAt n i e = true) :
    e.ListEntry.Blink = if i = 0 then n - 1 else i - 1 := by
  simp only [linkedAt, Bool.and_eq_true, beq_iff_eq] at h
  exact h.2

theorem linkedAt_flink {n i : Nat} {e : PROCESS_HISTORY_ENTRY} (h : linkedAt n i e = true) :
    e.ListEntry.Flink = if i + 1 = n then 0 else i + 1 := by
  simp only [linkedAt, Bool.and_eq_true, beq_iff_eq] at h
  exact h.1

theorem take_succ_reverse (rest : List PROCESS_HISTORY_ENTRY) (j : Nat) (e : PROCESS_HISTORY_ENTRY)
    (h : rest[j]? = some e) : (rest.take (j + 1)).reverse = e :: (rest.take j).reverse := by
  rw [List.take_succ, h]
  simp

/-- Entered at a record other than the head, the pointer loop of the summary
query does what `summarize` does on the records from there down to the second
oldest. -/
theorem summaryLoop_down (r0 : PROCESS_HISTORY_ENTRY) (rest : List PROCESS_HISTORY_ENTRY)
    (SkipCount MaxProcessSummaries : Nat)
    (hlinks : ∀ (j : Nat) (e : PROCESS_HISTORY_ENTRY), rest[j]? = some e → e.ListEntry.Blink = j) :
    ∀ j fuel index filled writes, j < rest.length → j + 1 ≤ fuel →
      summaryLoop (r0 :: rest) 0 SkipCount MaxProcessSummaries fuel (j + 1) index filled writes
        = some (summarize SkipCount MaxProcessSummaries ((rest.take (j + 1)).reverse)
            index filled writes) := by
  intro j
  induction j with
  | zero =>
    intro fuel index filled writes hj hfuel
    obtain ⟨f, rfl⟩ : ∃ f, fuel = f + 1 := ⟨fuel - 1, by omega⟩
    obtain ⟨e, he⟩ : ∃ e, rest[0]? = some e := ⟨rest[0], by simp [hj]⟩
    have hb := hlinks 0 e he
    rw [take_succ_reverse rest 0 e he]
    simp only [summaryLoop, summarize, List.getElem?_cons_succ, he, hb, List.take_zero,
      List.reverse_nil, ne_eq, not_true_eq_false, false_and, if_false]
    split_ifs <;> rfl
  | succ j ih =>
    intro fuel index filled writes hj hfuel
    obtain ⟨f, rfl⟩ : ∃ f, fuel = f + 1 := ⟨fuel - 1, by omega⟩
    obtain ⟨e, he⟩ : ∃ e, rest[j + 1]? = some e := ⟨rest[j + 1], by simp [hj]⟩
    have hb := hlinks (j + 1) e he
    have hne : (rest.take (j + 1)).reverse ≠ [] := by
      intro h
      have := congrArg List.length h
      rw [List.length_reverse, List.length_take, List.length_nil] at this
      omega
    rw [take_succ_reverse rest (j + 1) e he]
    simp only [summaryLoop, summarize, List.getElem?_cons_succ, he, hb]
    simp only [ne_eq, Nat.add_one_ne_zero, not_false_eq_true, hne, true_and]
    split_ifs
    · rfl
    · exact ih _ _ _ _ (by omega) (by omega)
    · rfl
    · exact ih _ _ _ _ (by omega) (by omega)
    · rfl

theorem wellLinked_nil {s : ImageHistoryFilter} (h : WellLinked s = true) (hp : s.pool = []) :
    s.ProcessHistoryHead = none := by
  simp only [WellLinked, hp, Bool.and_eq_true, beq_iff_eq] at h
  exact h.1

theorem wellLinked_cons {s : ImageHistoryFilter} (h : WellLinked s = true)
    {r0 : PROCESS_HISTORY_ENTRY} {rest : List PROCESS_HISTORY_ENTRY} (hp : s.pool = r0 :: rest) :
    s.ProcessHistoryHead = some 0
      ∧ ∀ (i : Nat) (e : PROCESS_HISTORY_ENTRY), s.pool[i]? = some e →
          linkedAt s.pool.length i e = true := by
  simp only [WellLinked, hp, Bool.and_eq_true, beq_iff_eq] at h
  refine ⟨h.1, ?_⟩
  intro i e hi
  rw [hp] at hi ⊢
  simpa using linksFrom_lookup _ _ 0 h.2 i e hi

theorem wellLinked_blink {s : ImageHistoryFilter} (h : WellLinked s = true)
    {r0 : PROCESS_HISTORY_ENTRY} {rest : List PROCESS_HISTORY_ENTRY} (hp : s.pool = r0 :: rest) :
    r0.ListEntry.Blink = rest.length
      ∧ ∀ (j : Nat) (e : PROCESS_HISTORY_ENTRY), rest[j]? = some e → e.ListEntry.Blink = j := by
  have hl := (wellLinked_cons h hp).2
  constructor
  · have := linkedAt_blink (hl 0 r0 (by simp [hp]))
    simpa [hp] using this
  · intro j e hj
    have := linkedAt_blink (hl (j + 1) e (by simpa [hp] using hj))
    simpa using this

/-- On a well linked store, with fuel for one lap, `GetProcessHistorySummary`
returns what `summarize` computes over the records in `blinkOrder`. -/
theorem summary_eq_summarize (s : ImageHistoryFilter) (h : WellLinked s = true)
    (hd : s.destroying = false) (fuel SkipCount MaxProcessSummaries : Nat)
    (hfuel : s.pool.length ≤ fuel) :
    GetProcessHistorySummary fuel s SkipCount MaxProcessSummaries
      = some (summarize SkipCount MaxProcessSummaries (blinkOrder s.pool) 0 0 []) := by
  cases hp : s.pool with
  | nil =>
    simp [GetProcessHistorySummary, hd, wellLinked_nil h hp, blinkOrder, summarize]
  | cons r0 rest =>
    have hhead := (wellLinked_cons h hp).1
    obtain ⟨hb0, hb⟩ := wellLinked_blink h hp
    rw [hp] at hfuel
    obtain ⟨f, rfl⟩ : ∃ f, fuel = f + 1 := ⟨fuel - 1, by simp at hfuel; omega⟩
    simp only [GetProcessHistorySummary, hd, hhead, hp, blinkOrder, Bool.false_eq_true, if_false]
    cases hr : rest with
    | nil =>
      subst hr
      simp only [summaryLoop, summarize, List.getElem?_cons_zero, hb0, List.length_nil,
        List.reverse_nil, ne_eq, not_true_eq_false, false_and, if_false]
      split_ifs <;> rfl
    | cons a rest2 =>
      have hlen : rest.length = rest2.length + 1 := by simp [hr]
      have hne : rest.reverse ≠ [] := by simp [hr]
      have hdown := summaryLoop_down r0 rest SkipCount MaxProcessSummaries hb rest2.length
      have htake : rest.take (rest2.length + 1) = rest := by
        rw [← hlen]; exact List.take_length rest
      rw [htake] at hdown
      rw [← hr]
      simp only [summaryLoop, summarize, List.getElem?_cons_zero, hb0, hlen, ne_eq,
        Nat.add_one_ne_zero, not_false_eq_true, hne, true_and]
      simp only [List.length_cons] at hfuel
      split_ifs
      · rfl
      · exact hdown _ _ _ _ (by omega) (by omega)
      · rfl
      · exact hdown _ _ _ _ (by omega) (by omega)
      · rfl

theorem copy_fits (name : UNICODE_STRING) (h : fitsSummaryBuffer name = true) :
    RtlStringCbCopyUnicodeString MAX_PATH name
      = (STATUS_SUCCESS, some (name.Buffer.take (name.Length / sizeofWCHAR) ++ [0])) := by
  simp only [fitsSummaryBuffer, Bool.and_eq_true, decide_eq_true_eq] at h
  have h1 : ¬ (MAX_PATH / sizeofWCHAR = 0 ∨ MAX_PATH / sizeofWCHAR > NTSTRSAFE_MAX_CCH) := by decide
  simp only [RtlStringCbCopyUnicodeString, h1, if_false, h.1, h.2, if_true]
  simp

theorem copy_overflows (name : UNICODE_STRING) (h : fitsSummaryBuffer name = false) :
    NT_SUCCESS (RtlStringCbCopyUnicodeString MAX_PATH name).1 = false := by
  have h1 : ¬ (MAX_PATH / sizeofWCHAR = 0 ∨ MAX_PATH / sizeofWCHAR > NTSTRSAFE_MAX_CCH) := by decide
  simp only [RtlStringCbCopyUnicodeString, h1, if_false]
  cases hv : RtlUnicodeStringValidateSrc name with
  | false => simp; decide
  | true =>
    simp only [fitsSummaryBuffer, hv, Bool.true_and, decide_eq_false_iff_not] at h
    simp only [Bool.true_eq_false, if_false, h]
    decide

theorem pathFits_iff (e : PROCESS_HISTORY_ENTRY) :
    pathFits e = true ↔ NT_SUCCESS (fillSummary e).1 = true := by
  unfold pathFits fillSummary
  cases e.ProcessImageFileName with
  | none => simp; decide
  | some name =>
    cases hf : fitsSummaryBuffer name with
    | true =>
      simp only [copy_fits name hf, hf, true_iff]
      decide
    | false =>
      simp only [hf, copy_overflows name hf]

theorem slotsFrom_snd (l : List PROCESS_HISTORY_ENTRY) :
    ∀ i, (slotsFrom i l).map Prod.snd = l.map fun e => (fillSummary e).2 := by
  induction l with
  | nil => intro i; rfl
  | cons a rest ih => intro i; simp [slotsFrom, ih]

/-- While the index is below `SkipCount` the loop only advances. -/
theorem summarize_skip (SkipCount MaxProcessSummaries filled : Nat) (writes : List SummaryWrite)
    (hskip : SkipCount < USHORT_SIZE) (hmax : filled < MaxProcessSummaries) :
    ∀ (l : List PROCESS_HISTORY_ENTRY) (index : Nat), index ≤ SkipCount →
      summarize SkipCount MaxProcessSummaries l index filled writes
        = if l.length ≤ SkipCount - index then (filled, writes)
          else summarize SkipCount MaxProcessSummaries (l.drop (SkipCount - index))
                SkipCount filled writes := by
  intro l
  induction l with
  | nil => intro index _; simp [summarize]
  | cons e rest ih =>
    intro index hi
    rcases Nat.eq_or_lt_of_le hi with heq | hlt
    · subst heq; simp
    · have hmod : (index + 1) % USHORT_SIZE = index + 1 := Nat.mod_eq_of_lt (by omega)
      have hnot : ¬ index ≥ SkipCount := by omega
      obtain ⟨d, hd⟩ : ∃ d, SkipCount - index = d + 1 := ⟨SkipCount - index - 1, by omega⟩
      have hd2 : SkipCount - (index + 1) = d := by omega
      simp only [summarize, hnot, if_false, hmod, hmax, gt_iff_lt, and_true, hd, List.drop_succ_cons,
        List.length_cons, Nat.add_le_add_iff_right]
      by_cases hr : rest = []
      · subst hr; simp
      · rw [if_pos hr, ih (index + 1) (by omega), hd2]

/-- From `SkipCount` on, while every name copy succeeds, the loop stores one
summary per record until `MaxProcessSummaries` are filled or the records run
out. -/
theorem summarize_all_fit (SkipCount MaxProcessSummaries : Nat)
    (hmax : MaxProcessSummaries < USHORT_SIZE) :
    ∀ (l : List PROCESS_HISTORY_ENTRY) (index filled : Nat) (writes : List SummaryWrite),
      l ≠ [] → (∀ e ∈ l, pathFits e = true) → SkipCount ≤ index →
      index + l.length ≤ USHORT_SIZE → filled < MaxProcessSummaries →
      summarize SkipCount MaxProcessSummaries l index filled writes
        = (filled + min (MaxProcessSummaries - filled) l.length,
            writes ++ slotsFrom index (l.take (MaxProcessSummaries - filled))) := by
  intro l
  induction l with
  | nil => intro index filled writes h; exact absurd rfl h
  | cons e rest ih =>
    intro index filled writes _ hfit hi hlen hf
    have hok : NT_SUCCESS (fillSummary e).1 = true := (pathFits_iff e).1 (hfit e (by simp))
    have hmodf : (filled + 1) % USHORT_SIZE = filled + 1 := Nat.mod_eq_of_lt (by omega)
    obtain ⟨d, hd⟩ : ∃ d, MaxProcessSummaries - filled = d + 1 :=
      ⟨MaxProcessSummaries - filled - 1, by omega⟩
    simp only [summarize, hi, ge_iff_le, if_true, hok, Bool.true_eq_false, if_false, hmodf, hd,
      List.take_succ_cons, slotsFrom, List.length_cons]
    by_cases hc : rest ≠ [] ∧ MaxProcessSummaries > filled + 1
    · have hlen2 : 0 < rest.length := List.length_pos.2 hc.1
      simp only [List.length_cons] at hlen
      have hmodi : (index + 1) % USHORT_SIZE = index + 1 := Nat.mod_eq_of_lt (by omega)
      rw [if_pos hc, hmodi, ih (index + 1) (filled + 1) _ hc.1
        (fun x hx => hfit x (by simp [hx])) (by omega) (by omega) (by omega)]
      have hd2 : MaxProcessSummaries - (filled + 1) = d := by omega
      rw [hd2]
      refine Prod.ext ?_ ?_
      · simp only; omega
      · simp
    · rw [if_neg hc]
      have hz : d = 0 ∨ rest = [] := by
        by_cases hr : rest = []
        · exact Or.inr hr
        · left
          have : ¬ MaxProcessSummaries > filled + 1 := fun h => hc ⟨hr, h⟩
          omega
      rcases hz with hz | hz
      · subst hz; simp [slotsFrom]
      · subst hz; simp [slotsFrom]

theorem blinkOrder_length (l : List PROCESS_HISTORY_ENTRY) : (blinkOrder l).length = l.length := by
  cases l <;> simp [blinkOrder]

theorem blinkOrder_mem (l : List PROCESS_HISTORY_ENTRY) (e : PROCESS_HISTORY_ENTRY) :
    e ∈ blinkOrder l ↔ e ∈ l := by
  cases l <;> simp [blinkOrder]

theorem length_poke (pool : List PROCESS_HISTORY_ENTRY) (addr : Nat)
    (f : PROCESS_HISTORY_ENTRY → PROCESS_HISTORY_ENTRY) : (poke pool addr f).length = pool.length := by
  unfold poke
  split <;> simp

theorem lookup_poke (pool : List PROCESS_HISTORY_ENTRY) (addr i : Nat)
    (f : PROCESS_HISTORY_ENTRY → PROCESS_HISTORY_ENTRY) :
    (poke pool addr f)[i]? = if i = addr then pool[addr]?.map f else pool[i]? := by
  unfold poke
  split
  next e he =>
    by_cases hi : i = addr
    · subst hi
      have hlt : i < pool.length := by
        by_contra hge
        rw [List.getElem?_eq_none (by omega)] at he
        exact absurd he (by simp)
      simp [he, List.getElem?_set, hlt]
    · rw [if_neg hi, List.getElem?_set_ne (Ne.symm hi)]
  next he =>
    by_cases hi : i = addr
    · subst hi; simp [he]
    · rw [if_neg hi]

theorem wellLinked_of_lookup (s : ImageHistoryFilter) (hne : s.pool ≠ [])
    (hhead : s.ProcessHistoryHead = some 0)
    (hl : ∀ (i : Nat) (e : PROCESS_HISTORY_ENTRY), s.pool[i]? = some e →
      linkedAt s.pool.length i e = true) : WellLinked s = true := by
  unfold WellLinked
  rw [Bool.and_eq_true]
  constructor
  · cases hp : s.pool with
    | nil => exact absurd hp hne
    | cons a rest => simp [hhead]
  · exact linksFrom_of_lookup _ _ 0 (fun j e hj => by simpa using hl j e hj)

theorem wellLinked_lookup {s : ImageHistoryFilter} (h : WellLinked s = true) (i : Nat)
    (e : PROCESS_HISTORY_ENTRY) (hi : s.pool[i]? = some e) : linkedAt s.pool.length i e = true := by
  cases hp : s.pool with
  | nil => rw [hp] at hi; simp at hi
  | cons a rest => rw [← hp]; exact (wellLinked_cons h hp).2 i e hi

theorem wellLinked_head {s : ImageHistoryFilter} (h : WellLinked s = true) (hne : s.pool ≠ []) :
    s.ProcessHistoryHead = some 0 := by
  cases hp : s.pool with
  | nil => exact absurd hp hne
  | cons a rest => exact (wellLinked_cons h hp).1

/-- Linking a new record at the tail of a well linked circle of `n` records
gives a well linked circle of `n + 1` records, the new record at address `n`. -/
theorem insertTail_wellLinked (pool : List PROCESS_HISTORY_ENTRY) (entry : PROCESS_HISTORY_ENTRY)
    (hne : pool ≠ [])
    (hl : ∀ (i : Nat) (e : PROCESS_HISTORY_ENTRY), pool[i]? = some e →
      linkedAt pool.length i e = true) :
    (InsertTailList (pool ++ [entry]) 0 pool.length).length = pool.length + 1
      ∧ (∀ (i : Nat) (e : PROCESS_HISTORY_ENTRY),
          (InsertTailList (pool ++ [entry]) 0 pool.length)[i]? = some e →
          linkedAt (pool.length + 1) i e = true)
      ∧ ∃ r, (InsertTailList (pool ++ [entry]) 0 pool.length)[pool.length]? = some r
          ∧ r.ProcessId = entry.ProcessId ∧ r.ParentId = entry.ParentId
          ∧ r.ProcessTerminated = entry.ProcessTerminated := by
  have hpos : 0 < pool.length := List.length_pos.2 hne
  obtain ⟨r0, hr0⟩ : ∃ r0, pool[0]? = some r0 := ⟨pool[0], by simp [hpos]⟩
  have hb0 : r0.ListEntry.Blink = pool.length - 1 := by
    simpa using linkedAt_blink (hl 0 r0 hr0)
  have h0 : (pool ++ [entry])[0]? = some r0 := by
    rw [List.getElem?_append_left hpos]; exact hr0
  have hnew : (pool ++ [entry])[pool.length]? = some entry := by
    simp
  simp only [InsertTailList, h0, hb0]
  refine ⟨by simp [length_poke], ?_, ?_⟩
  · intro i e hi
    simp only [lookup_poke, hnew, Option.map_some'] at hi
    by_cases hin : i = pool.length
    · subst hin
      have h1 : ¬ pool.length = 0 := by omega
      have h2 : ¬ pool.length = pool.length - 1 := by omega
      simp only [h1, h2, if_false, if_true, Option.some.injEq] at hi
      subst hi
      simp [linkedAt, h1]
    · have hlt : i < pool.length := by
        by_contra hge
        have : (pool ++ [entry])[i]? = none := List.getElem?_eq_none (by simp; omega)
        by_cases hz : i = 0
        · omega
        · by_cases ht : i = pool.length - 1
          · omega
          · simp [hz, ht, hin, this] at hi
      obtain ⟨e0, he0⟩ : ∃ e0, pool[i]? = some e0 := ⟨pool[i], by simp [hlt]⟩
      have hi0 : (pool ++ [entry])[i]? = some e0 := by
        rw [List.getElem?_append_left hlt]; exact he0
      have hlk := hl i e0 he0
      have hf := linkedAt_flink hlk
      have hbk := linkedAt_blink hlk
      have h1 : ¬ pool.length - 1 = pool.length := by omega
      have h2 : ¬ 0 = pool.length := by omega
      have hlast : (pool ++ [entry])[pool.length - 1]?
          = pool[pool.length - 1]? := List.getElem?_append_left (by omega)
      by_cases hz : i = 0
      · subst hz
        rw [hr0] at he0
        cases he0
        by_cases ht : 0 = pool.length - 1
        · simp only [← ht, if_true, h2, if_false, h0, Option.map_some',
            Option.some.injEq] at hi
          subst hi
          simp only [linkedAt, Bool.and_eq_true, beq_iff_eq]
          constructor <;> dsimp only <;> split_ifs <;> omega
        · simp only [if_true, ht, h2, if_false, h0, Option.map_some', Option.some.injEq] at hi
          subst hi
          simp only [linkedAt, Bool.and_eq_true, beq_iff_eq]
          constructor <;> dsimp only <;> (try rw [hf]) <;> split_ifs <;> omega
      · by_cases ht : i = pool.length - 1
        · subst ht
          simp only [hz, if_false, if_true, h1, hi0, Option.map_some', Option.some.injEq] at hi
          subst hi
          simp only [linkedAt, Bool.and_eq_true, beq_iff_eq]
          constructor <;> dsimp only <;> (try rw [hbk]) <;> split_ifs <;> omega
        · simp only [hz, ht, hin, if_false, hi0, Option.some.injEq] at hi
          subst hi
          simp only [linkedAt, Bool.and_eq_true, beq_iff_eq]
          rw [hf, hbk]
          constructor <;> split_ifs <;> omega
  · have h1 : ¬ pool.length = 0 := by omega
    have h2 : ¬ pool.length = pool.length - 1 := by omega
    refine ⟨{ entry with ListEntry := { Flink := 0, Blink := pool.length - 1 } }, ?_, rfl, rfl, rfl⟩
    simp only [lookup_poke, hnew, h1, h2, if_false, if_true, Option.map_some']

/-- What `AddProcessToHistory` does on a well linked store when its own
allocations succeed. -/
theorem wellLinked_of_same_links (s t : ImageHistoryFilter) (h : WellLinked s = true)
    (hhead : t.ProcessHistoryHead = s.ProcessHistoryHead) (hlen : t.pool.length = s.pool.length)
    (hl : ∀ (i : Nat) (e1 : PROCESS_HISTORY_ENTRY), t.pool[i]? = some e1 →
      ∃ e, s.pool[i]? = some e ∧ e1.ListEntry = e.ListEntry) : WellLinked t = true := by
  by_cases hne : s.pool = []
  · have ht : t.pool = [] := List.length_eq_zero.1 (by rw [hlen, hne]; rfl)
    have := wellLinked_nil h hne
    simp [WellLinked, ht, hhead, this, linksFrom]
  · have ht : t.pool ≠ [] := by
      intro hnil
      apply hne
      exact List.length_eq_zero.1 (by rw [← hlen, hnil]; rfl)
    apply wellLinked_of_lookup t ht (by rw [hhead]; exact wellLinked_head h hne)
    intro i e1 hi
    obtain ⟨e, he, hle⟩ := hl i e1 hi
    have := wellLinked_lookup h i e he
    rw [hlen]
    simpa [linkedAt, hle] using this

theorem terminateLoop_down (r0 : PROCESS_HISTORY_ENTRY) (rest : List PROCESS_HISTORY_ENTRY)
    (ProcessId : Nat)
    (hlinks : ∀ (j : Nat) (e : PROCESS_HISTORY_ENTRY), rest[j]? = some e → e.ListEntry.Blink = j) :
    ∀ j fuel, j < rest.length → j + 1 ≤ fuel →
      ∃ pool1, terminateLoop (r0 :: rest) 0 ProcessId fuel (j + 1) = some pool1 := by
  intro j
  induction j with
  | zero =>
    intro fuel hj hfuel
    obtain ⟨f, rfl⟩ : ∃ f, fuel = f + 1 := ⟨fuel - 1, by omega⟩
    obtain ⟨e, he⟩ : ∃ e, rest[0]? = some e := ⟨rest[0], by simp [hj]⟩
    have hb := hlinks 0 e he
    simp only [terminateLoop, List.getElem?_cons_succ, he, hb, ne_eq, not_true_eq_false, if_false]
    split_ifs <;> exact ⟨_, rfl⟩
  | succ j ih =>
    intro fuel hj hfuel
    obtain ⟨f, rfl⟩ : ∃ f, fuel = f + 1 := ⟨fuel - 1, by omega⟩
    obtain ⟨e, he⟩ : ∃ e, rest[j + 1]? = some e := ⟨rest[j + 1], by simp [hj]⟩
    have hb := hlinks (j + 1) e he
    simp only [terminateLoop, List.getElem?_cons_succ, he, hb, ne_eq, Nat.add_one_ne_zero,
      not_false_eq_true, if_true]
    split_ifs
    · exact ⟨_, rfl⟩
    · exact ih f (by omega) (by omega)

theorem findLoop_down (r0 : PROCESS_HISTORY_ENTRY) (rest : List PROCESS_HISTORY_ENTRY)
    (ProcessId : Nat)
    (hlinks : ∀ (j : Nat) (e : PROCESS_HISTORY_ENTRY), rest[j]? = some e → e.ListEntry.Blink = j) :
    ∀ j fuel, j < rest.length → j + 1 ≤ fuel →
      ∃ a, findLoop (r0 :: rest) 0 ProcessId fuel (j + 1) = some a ∧ a ≤ j + 1 := by
  intro j
  induction j with
  | zero =>
    intro fuel hj hfuel
    obtain ⟨f, rfl⟩ : ∃ f, fuel = f + 1 := ⟨fuel - 1, by omega⟩
    obtain ⟨e, he⟩ : ∃ e, rest[0]? = some e := ⟨rest[0], by simp [hj]⟩
    have hb := hlinks 0 e he
    simp only [findLoop, List.getElem?_cons_succ, he, hb, ne_eq, not_true_eq_false, if_false]
    split_ifs
    · exact ⟨_, rfl, le_refl _⟩
    · exact ⟨_, rfl, by omega⟩
  | succ j ih =>
    intro fuel hj hfuel
    obtain ⟨f, rfl⟩ : ∃ f, fuel = f + 1 := ⟨fuel - 1, by omega⟩
    obtain ⟨e, he⟩ : ∃ e, rest[j + 1]? = some e := ⟨rest[j + 1], by simp [hj]⟩
    have hb := hlinks (j + 1) e he
    simp only [findLoop, List.getElem?_cons_succ, he, hb, ne_eq, Nat.add_one_ne_zero,
      not_false_eq_true, if_true]
    split_ifs
    · exact ⟨_, rfl, le_refl _⟩
    · obtain ⟨a, ha, hle⟩ := ih f (by omega) (by omega)
      exact ⟨a, ha, by omega⟩

/-- On a well linked store `TerminateProcessInHistory` returns within one lap
and leaves the links as they are. -/
theorem flinkWalk_up (pool : List PROCESS_HISTORY_ENTRY)
    (hl : ∀ (i : Nat) (e : PROCESS_HISTORY_ENTRY), pool[i]? = some e →
      linkedAt pool.length i e = true) :
    ∀ d k fuel, k + (d + 1) = pool.length → d + 1 ≤ fuel →
      flinkWalk pool 0 fuel k = some (List.range' k (d + 1)) := by
  intro d
  induction d with
  | zero =>
    intro k fuel hk hfuel
    obtain ⟨f, rfl⟩ : ∃ f, fuel = f + 1 := ⟨fuel - 1, by omega⟩
    obtain ⟨e, he⟩ : ∃ e, pool[k]? = some e := ⟨pool[k], by simp⟩
    have hf := linkedAt_flink (hl k e he)
    rw [if_pos (by omega)] at hf
    simp [flinkWalk, he, hf]
  | succ d ih =>
    intro k fuel hk hfuel
    obtain ⟨f, rfl⟩ : ∃ f, fuel = f + 1 := ⟨fuel - 1, by omega⟩
    obtain ⟨e, he⟩ : ∃ e, pool[k]? = some e := ⟨pool[k], by simp⟩
    have hf := linkedAt_flink (hl k e he)
    rw [if_neg (by omega)] at hf
    simp only [flinkWalk, he, hf, ne_eq, Nat.add_one_ne_zero, not_false_eq_true, if_true]
    rw [ih (k + 1) f (by omega) (by omega)]
    simp [List.range']

/-- On a well linked store the walk along `Flink` meets the addresses
`0 .. n - 1` in this order: list order is insertion order. -/
theorem processList_wellLinked (s : ImageHistoryFilter) (fuel : Nat) (h : WellLinked s = true)
    (hfuel : s.pool.length ≤ fuel) : processList fuel s = some (List.range s.pool.length) := by
  cases hp : s.pool with
  | nil => simp [processList, wellLinked_nil h hp]
  | cons r0 rest =>
    have hhead := (wellLinked_cons h hp).1
    have := flinkWalk_up s.pool (fun i e hi => wellLinked_lookup h i e hi) rest.length 0 fuel
      (by simp [hp]) (by rw [hp] at hfuel; simpa using hfuel)
    simp only [processList, hhead, this, List.length_cons, List.range_eq_range']

/-- One event on a well linked store: the callback returns, the store stays
well linked, and it grows by one record exactly for a resolved create. -/
theorem copy_without_room_fails (name : UNICODE_STRING) :
    NT_SUCCESS (RtlStringCbCopyUnicodeString (name.Length + 1) name).1 = false := by
  unfold RtlStringCbCopyUnicodeString
  simp only []
  have hinv : NT_SUCCESS STATUS_INVALID_PARAMETER = false := by decide
  have hovf : NT_SUCCESS STATUS_BUFFER_OVERFLOW = false := by decide
  split_ifs with h1 h2 h3
  · exact hinv
  · exact hinv
  · exfalso
    have hv : RtlUnicodeStringValidateSrc name = true := by simpa using h2
    simp only [RtlUnicodeStringValidateSrc, Bool.and_eq_true, beq_iff_eq, decide_eq_true_eq,
      sizeofWCHAR] at hv
    simp only [sizeofWCHAR] at h3
    omega
  · exact hovf

theorem notWild_congr {e1 e : PROCESS_HISTORY_ENTRY}
    (h : e1.ImageLoadHistory = e.ImageLoadHistory) : notWild e1 = notWild e := by
  simp only [notWild, h]

theorem cleanPool_iff (pool : List PROCESS_HISTORY_ENTRY) :
    cleanPool pool = true ↔
      ∀ (i : Nat) (e : PROCESS_HISTORY_ENTRY), pool[i]? = some e → notWild e = true := by
  simp only [cleanPool, List.all_eq_true]
  constructor
  · intro h i e hi
    exact h e (List.mem_iff_getElem?.2 ⟨i, hi⟩)
  · intro h e he
    obtain ⟨i, hi⟩ := List.mem_iff_getElem?.1 he
    exact h i e hi

theorem cleanPool_of_same (pool pool1 : List PROCESS_HISTORY_ENTRY)
    (h : cleanPool pool = true)
    (hl : ∀ (i : Nat) (e1 : PROCESS_HISTORY_ENTRY), pool1[i]? = some e1 →
      ∃ e, pool[i]? = some e ∧ e1.ImageLoadHistory = e.ImageLoadHistory) :
    cleanPool pool1 = true := by
  rw [cleanPool_iff] at h ⊢
  intro i e1 hi
  obtain ⟨e, he, hsame⟩ := hl i e1 hi
  rw [notWild_congr hsame]
  exact h i e he

theorem poke_payload (pool : List PROCESS_HISTORY_ENTRY) (addr : Nat)
    (f : PROCESS_HISTORY_ENTRY → PROCESS_HISTORY_ENTRY)
    (i : Nat) (e1 : PROCESS_HISTORY_ENTRY) (hi : (poke pool addr f)[i]? = some e1)
    (hf : ∀ e, (f e).ImageLoadHistory = e.ImageLoadHistory) :
    ∃ e, pool[i]? = some e ∧ e1.ImageLoadHistory = e.ImageLoadHistory := by
  rw [lookup_poke] at hi
  split_ifs at hi with hia
  · subst hia
    cases hp : pool[i]? with
    | none => simp [hp] at hi
    | some e =>
      simp only [hp, Option.map_some', Option.some.injEq] at hi
      subst hi
      exact ⟨e, rfl, hf e⟩
  · exact ⟨e1, hi, rfl⟩

theorem insertTail_payload (pool : List PROCESS_HISTORY_ENTRY) (ListHead Entry : Nat)
    (i : Nat) (e1 : PROCESS_HISTORY_ENTRY) (hi : (InsertTailList pool ListHead Entry)[i]? = some e1) :
    ∃ e, pool[i]? = some e ∧ e1.ImageLoadHistory = e.ImageLoadHistory := by
  unfold InsertTailList at hi
  cases hh : pool[ListHead]? with
  | none => simp only [hh] at hi; exact ⟨e1, hi, rfl⟩
  | some h =>
    simp only [hh] at hi
    obtain ⟨e2, h2, s2⟩ := poke_payload _ _ _ i e1 hi (fun _ => rfl)
    obtain ⟨e3, h3, s3⟩ := poke_payload _ _ _ i e2 h2 (fun _ => rfl)
    obtain ⟨e4, h4, s4⟩ := poke_payload _ _ _ i e3 h3 (fun _ => rfl)
    exact ⟨e4, h4, by rw [s2, s3, s4]⟩

/-- When its own allocations succeed and the child path resolves,
`AddProcessToHistory` links one entry, whatever the pool block held. -/
theorem add_eq (s : ImageHistoryFilter) (host : CreateHost) (ProcessId ParentId : HANDLE)
    (hd : s.destroying = false) (ha : host.entryAllocated = true)
    (hs : host.stackAllocated = true)
    (hres : (GetProcessImageFileName host.processName).1 = true) :
    ∃ entry : PROCESS_HISTORY_ENTRY,
      entry.ProcessId = ProcessId ∧ entry.ParentId = ParentId ∧ entry.ProcessTerminated = false
        ∧ entry.ImageLoadHistory = Pointer.ofBits host.staleImageLoadHistory
        ∧ AddProcessToHistory s host ProcessId ParentId
            = match s.ProcessHistoryHead with
              | none =>
                { s with pool := InitializeListHead (s.pool ++ [entry]) s.pool.length
                         ProcessHistoryHead := some s.pool.length }
              | some head =>
                { s with pool := InsertTailList (s.pool ++ [entry]) head s.pool.length } := by
  refine ⟨{ ListEntry := host.staleListEntry
            CallerId := host.currentProcessId
            ParentId := ParentId
            ProcessId := ProcessId
            ProcessImageFileName := (GetProcessImageFileName host.processName).2
            ParentImageFileName := (GetProcessImageFileName host.parentName).2
            CallerImageFileName :=
              if host.currentProcessId ≠ ParentId then
                Pointer.ofOption (GetProcessImageFileName host.callerName).2
              else Pointer.ofBits host.staleCallerImageFileName
            EpochExecutionTime := host.EpochExecutionTime
            ProcessTerminated := false
            CallerStackHistory := host.stackReturns
            CallerStackHistorySize := host.stackReturns.length
            ImageLoadHistory := Pointer.ofBits host.staleImageLoadHistory }, rfl, rfl, rfl, rfl, ?_⟩
  simp only [AddProcessToHistory, hd, ha, hs, hres, Bool.false_eq_true, if_false,
    Bool.true_eq_false]

/-- What `AddProcessToHistory` does on a well linked store when its own
allocations succeed. -/
theorem add_spec (s : ImageHistoryFilter) (host : CreateHost) (ProcessId ParentId : HANDLE)
    (h : WellLinked s = true) (hd : s.destroying = false)
    (ha : host.entryAllocated = true) (hs : host.stackAllocated = true) :
    WellLinked (AddProcessToHistory s host ProcessId ParentId) = true
      ∧ (AddProcessToHistory s host ProcessId ParentId).destroying = false
      ∧ ((GetProcessImageFileName host.processName).1 = true →
          (AddProcessToHistory s host ProcessId ParentId).pool.length = s.pool.length + 1
            ∧ ∃ r, (AddProcessToHistory s host ProcessId ParentId).pool[s.pool.length]? = some r
                ∧ r.ProcessId = ProcessId ∧ r.ParentId = ParentId ∧ r.ProcessTerminated = false)
      ∧ ((GetProcessImageFileName host.processName).1 = false →
          AddProcessToHistory s host ProcessId ParentId = s)
      ∧ (cleanPool s.pool = true → host.staleImageLoadHistory = 0 →
          cleanPool (AddProcessToHistory s host ProcessId ParentId).pool = true) := by
  by_cases hres : (GetProcessImageFileName host.processName).1 = true
  swap
  · have hf : (GetProcessImageFileName host.processName).1 = false := by simpa using hres
    have : AddProcessToHistory s host ProcessId ParentId = s := by
      simp [AddProcessToHistory, hd, ha, hf]
    rw [this]
    exact ⟨h, hd, fun hc => absurd hc hres, fun _ => rfl, fun hc _ => hc⟩
  · obtain ⟨entry, e1, e2, e3, e4, heq⟩ := add_eq s host ProcessId ParentId hd ha hs hres
    have hentry : host.staleImageLoadHistory = 0 → notWild entry = true := by
      intro hz
      simp [notWild, e4, Pointer.ofBits, hz]
    cases hp : s.pool with
    | nil =>
      have hhead := wellLinked_nil h hp
      rw [heq]
      simp only [hhead, hp, List.nil_append, List.length_nil, InitializeListHead, poke,
        List.getElem?_cons_zero, List.set_cons_zero]
      refine ⟨by simp [WellLinked, linksFrom, linkedAt], hd, fun _ => ⟨rfl, ?_⟩,
        fun hc => absurd hres (by simp [hc]), ?_⟩
      · exact ⟨_, rfl, e1, e2, e3⟩
      · intro _ hz
        have := hentry hz
        simpa [cleanPool, notWild] using this
    | cons r0 rest =>
      have hhead := (wellLinked_cons h hp).1
      have hne : s.pool ≠ [] := by simp [hp]
      obtain ⟨hlen, hlinks, r, hr, hr1, hr2, hr3⟩ := insertTail_wellLinked s.pool entry hne
        (fun i e hi => wellLinked_lookup h i e hi)
      have heq2 : AddProcessToHistory s host ProcessId ParentId
          = { s with pool := InsertTailList (s.pool ++ [entry]) 0 s.pool.length } := by
        rw [heq, hhead]
      rw [← hp, heq2]
      refine ⟨?_, hd, fun _ => ⟨hlen, r, hr, by rw [hr1, e1], by rw [hr2, e2], by rw [hr3, e3]⟩,
        fun hc => absurd hres (by simp [hc]), ?_⟩
      · apply wellLinked_of_lookup
        · intro hnil
          have := congrArg List.length hnil
          simp only [hlen, List.length_nil] at this
          omega
        · exact hhead
        · intro i e hi
          simp only [hlen]
          exact hlinks i e hi
      · intro hc hz
        have hall : cleanPool (s.pool ++ [entry]) = true := by
          simp only [cleanPool, List.all_append, List.all_cons, List.all_nil, Bool.and_true,
            Bool.and_eq_true]
          exact ⟨hc, hentry hz⟩
        exact cleanPool_of_same _ _ hall (fun i e1 hi => insertTail_payload _ _ _ i e1 hi)

theorem terminateLoop_links (pool : List PROCESS_HISTORY_ENTRY) (head ProcessId : Nat) :
    ∀ (fuel current : Nat) (pool1 : List PROCESS_HISTORY_ENTRY),
      terminateLoop pool head ProcessId fuel current = some pool1 →
      pool1.length = pool.length
        ∧ ∀ (i : Nat) (e1 : PROCESS_HISTORY_ENTRY), pool1[i]? = some e1 →
            ∃ e, pool[i]? = some e ∧ e1.ListEntry = e.ListEntry
              ∧ e1.ImageLoadHistory = e.ImageLoadHistory := by
  intro fuel
  induction fuel with
  | zero => intro current pool1 h; simp [terminateLoop] at h
  | succ fuel ih =>
    intro current pool1 h
    simp only [terminateLoop] at h
    cases hc : pool[current]? with
    | none => simp [hc] at h
    | some e =>
      simp only [hc] at h
      split_ifs at h with hm hn
      · cases h
        refine ⟨by simp, ?_⟩
        intro i e1 hi
        by_cases hic : current = i
        · subst hic
          have hlt : current < pool.length := by
            by_contra hge
            rw [List.getElem?_eq_none (by omega)] at hc
            exact absurd hc (by simp)
          rw [List.getElem?_set_self hlt] at hi
          cases hi
          exact ⟨e, hc, rfl, rfl⟩
        · rw [List.getElem?_set_ne hic] at hi
          exact ⟨e1, hi, rfl, rfl⟩
      · exact ih _ _ h
      · cases h
        exact ⟨rfl, fun i e1 hi => ⟨e1, hi, rfl, rfl⟩⟩

/-- On a well linked store `TerminateProcessInHistory` returns within one lap
and leaves the links and the image load pointers as they are. -/
theorem terminate_spec (s : ImageHistoryFilter) (ProcessId fuel : Nat)
    (h : WellLinked s = true) (hd : s.destroying = false) (hfuel : s.pool.length ≤ fuel) :
    ∃ t, TerminateProcessInHistory fuel s ProcessId = some t
      ∧ WellLinked t = true ∧ t.destroying = false ∧ t.pool.length = s.pool.length
      ∧ (cleanPool s.pool = true → cleanPool t.pool = true) := by
  cases hp : s.pool with
  | nil =>
    refine ⟨s, ?_, h, hd, by rw [hp], by rw [hp]; exact id⟩
    simp [TerminateProcessInHistory, hd, wellLinked_nil h hp]
  | cons r0 rest =>
    have hhead := (wellLinked_cons h hp).1
    obtain ⟨hb0, hb⟩ := wellLinked_blink h hp
    rw [hp] at hfuel
    simp only [List.length_cons] at hfuel
    obtain ⟨f, rfl⟩ : ∃ f, fuel = f + 1 := ⟨fuel - 1, by omega⟩
    have hloop : ∃ pool1, terminateLoop s.pool 0 ProcessId (f + 1) 0 = some pool1 := by
      rw [hp]
      simp only [terminateLoop, List.getElem?_cons_zero, hb0]
      split_ifs with hm hn
      · exact ⟨_, rfl⟩
      · obtain ⟨j, hj⟩ : ∃ j, rest.length = j + 1 := ⟨rest.length - 1, by omega⟩
        rw [hj]
        exact terminateLoop_down r0 rest ProcessId hb j f (by omega) (by omega)
      · exact ⟨_, rfl⟩
    obtain ⟨pool1, hpool1⟩ := hloop
    obtain ⟨hlen, hl⟩ := terminateLoop_links s.pool 0 ProcessId _ _ _ hpool1
    refine ⟨{ s with pool := pool1 }, ?_, ?_, hd, by rw [← hp]; exact hlen, ?_⟩
    · simp [TerminateProcessInHistory, hd, hhead, hpool1]
    · exact wellLinked_of_same_links s _ h rfl hlen
        (fun i e1 hi => by obtain ⟨e, he, h1, _⟩ := hl i e1 hi; exact ⟨e, he, h1⟩)
    · intro hc
      rw [← hp] at hc
      exact cleanPool_of_same s.pool pool1 hc
        (fun i e1 hi => by obtain ⟨e, he, _, h2⟩ := hl i e1 hi; exact ⟨e, he, h2⟩)

/-- On a well linked store with no stale image load pointer, and a block for
the new entry that reads zero where the name buffer lies,
`LoadImageNotifyRoutine` returns within one lap and leaves the links as they
are. -/
theorem load_spec (s : ImageHistoryFilter) (host : LoadHost)
    (FullImageName : Option UNICODE_STRING) (ProcessId fuel : Nat)
    (h : WellLinked s = true) (hc : cleanPool s.pool = true) (hd : s.destroying = false)
    (hfuel : s.pool.length ≤ fuel) (hz : host.staleImageFileNameBuffer = 0) :
    ∃ t, LoadImageNotifyRoutine fuel s host FullImageName ProcessId = some t
      ∧ WellLinked t = true ∧ t.destroying = false ∧ t.pool.length = s.pool.length
      ∧ cleanPool t.pool = true := by
  cases hp : s.pool with
  | nil =>
    refine ⟨s, ?_, h, hd, by rw [hp], hc⟩
    simp [LoadImageNotifyRoutine, hd, wellLinked_nil h hp]
  | cons r0 rest =>
    have hhead := (wellLinked_cons h hp).1
    obtain ⟨hb0, hb⟩ := wellLinked_blink h hp
    rw [hp] at hfuel
    simp only [List.length_cons] at hfuel
    obtain ⟨f, rfl⟩ : ∃ f, fuel = f + 1 := ⟨fuel - 1, by omega⟩
    have hloop : ∃ a, findLoop s.pool 0 ProcessId (f + 1) 0 = some a ∧ a < s.pool.length := by
      rw [hp]
      simp only [findLoop, List.getElem?_cons_zero, hb0, List.length_cons]
      split_ifs with hm hn
      · exact ⟨_, rfl, by omega⟩
      · obtain ⟨j, hj⟩ : ∃ j, rest.length = j + 1 := ⟨rest.length - 1, by omega⟩
        rw [hj]
        obtain ⟨a, ha, hle⟩ := findLoop_down r0 rest ProcessId hb j f (by omega) (by omega)
        exact ⟨a, ha, by omega⟩
      · exact ⟨_, rfl, by omega⟩
    obtain ⟨a, ha, halt⟩ := hloop
    obtain ⟨e, he⟩ : ∃ e, s.pool[a]? = some e := ⟨s.pool[a], by simp [halt]⟩
    have hnw : notWild e = true := (cleanPool_iff s.pool).1 hc a e he
    have hsame : WellLinked s = true ∧ s.destroying = false ∧ s.pool.length = s.pool.length
        ∧ cleanPool s.pool = true := ⟨h, hd, rfl, hc⟩
    have hattach : ∀ (entries : List IMAGE_LOAD_HISTORY_ENTRY) (t : ImageHistoryFilter),
        t.ProcessHistoryHead = some 0 →
        t.pool = s.pool.set a { e with ImageLoadHistory := .valid entries } →
        WellLinked t = true ∧ t.pool.length = s.pool.length ∧ cleanPool t.pool = true := by
      intro entries t hth htp
      refine ⟨wellLinked_of_same_links s t h ?_ ?_ ?_, by simp [htp], ?_⟩
      · rw [hth, hhead]
      · simp [htp]
      · intro i e1 hi
        rw [htp] at hi
        by_cases hia : a = i
        · subst hia
          rw [List.getElem?_set_self halt] at hi
          cases hi
          exact ⟨e, he, rfl⟩
        · rw [List.getElem?_set_ne hia] at hi
          exact ⟨e1, hi, rfl⟩
      · rw [cleanPool_iff]
        intro i e1 hi
        rw [htp] at hi
        by_cases hia : a = i
        · subst hia
          rw [List.getElem?_set_self halt] at hi
          cases hi
          rfl
        · rw [List.getElem?_set_ne hia] at hi
          exact (cleanPool_iff s.pool).1 hc i e1 hi
    have hlink : ∀ img : IMAGE_LOAD_HISTORY_ENTRY,
        ∃ t, (match e.ImageLoadHistory with
            | .null =>
              some { pool := s.pool.set a { e with ImageLoadHistory := .valid [img] }
                     ProcessHistoryHead := some 0
                     destroying := false }
            | .valid entries =>
              some { pool := s.pool.set a { e with ImageLoadHistory := .valid (entries ++ [img]) }
                     ProcessHistoryHead := some 0
                     destroying := false }
            | .wild _ => none) = some t
          ∧ WellLinked t = true ∧ t.destroying = false ∧ t.pool.length = s.pool.length
          ∧ cleanPool t.pool = true := by
      intro img
      cases hil : e.ImageLoadHistory with
      | null =>
        obtain ⟨w1, w2, w3⟩ := hattach [img]
          { pool := s.pool.set a { e with ImageLoadHistory := .valid [img] }
            ProcessHistoryHead := some 0
            destroying := false } rfl rfl
        exact ⟨_, rfl, w1, rfl, w2, w3⟩
      | valid entries =>
        obtain ⟨w1, w2, w3⟩ := hattach (entries ++ [img])
          { pool := s.pool.set a { e with ImageLoadHistory := .valid (entries ++ [img]) }
            ProcessHistoryHead := some 0
            destroying := false } rfl rfl
        exact ⟨_, rfl, w1, rfl, w2, w3⟩
      | wild bits => simp [notWild, hil] at hnw
    simp only [LoadImageNotifyRoutine, hd, hhead, ha, he, Bool.false_eq_true, if_false,
      Option.map_some']
    rw [← hp]
    by_cases h1 : host.entryAllocated = false
    · rw [if_pos h1]; exact ⟨s, rfl, hsame⟩
    · rw [if_neg h1]
      rcases FullImageName with _ | name
      · by_cases h2 : host.stackAllocated = false
        · simp only [h2, or_true, if_true, Pointer.ofBits, hz]; exact ⟨s, rfl, hsame⟩
        · simp only [h2, or_false, Bool.true_eq_false, if_false]
          exact hlink _
      · by_cases hn : host.nameAllocated = false
        · simp only [hn, if_true, true_or]; exact ⟨s, rfl, hsame⟩
        · by_cases hcopy : NT_SUCCESS (RtlStringCbCopyUnicodeString (name.Length + 1) name).1 = false
          · simp only [hn, hcopy, if_true, if_false, true_or]; exact ⟨s, rfl, hsame⟩
          · by_cases h2 : host.stackAllocated = false
            · simp only [hn, hcopy, h2, if_true, if_false, or_true]; exact ⟨s, rfl, hsame⟩
            · simp only [hn, hcopy, h2, if_false, or_self]
              exact hlink _

/-- One event on a well linked store with no stale image load pointer, on a
zeroed pool: the callback returns, the store stays so, and it grows by one
record exactly for a resolved create. -/
theorem deliver_spec (s : ImageHistoryFilter) (e : Event) (fuel : Nat)
    (h : WellLinked s = true) (hc : cleanPool s.pool = true) (hd : s.destroying = false)
    (hfuel : s.pool.length ≤ fuel) (ha : allocationsSucceed e = true)
    (hz : zeroedPool e = true) :
    ∃ t, deliver fuel s e = some t ∧ WellLinked t = true ∧ cleanPool t.pool = true
      ∧ t.destroying = false
      ∧ t.pool.length = s.pool.length + (if childResolved e = true then 1 else 0) := by
  cases e with
  | create ParentId ProcessId host =>
    simp only [allocationsSucceed, Bool.and_eq_true] at ha
    simp only [zeroedPool, beq_iff_eq] at hz
    obtain ⟨h1, h2, h3, h4, h5⟩ := add_spec s host ProcessId ParentId h hd ha.1 ha.2
    refine ⟨_, by simp [deliver, CreateProcessNotifyRoutine], h1, h5 hc hz, h2, ?_⟩
    simp only [childResolved]
    by_cases hres : (GetProcessImageFileName host.processName).1 = true
    · rw [if_pos hres]; exact (h3 hres).1
    · rw [if_neg hres, h4 (by simpa using hres)]; rfl
  | exit ParentId ProcessId =>
    obtain ⟨t, ht, h1, h2, h3, h4⟩ := terminate_spec s ProcessId fuel h hd hfuel
    exact ⟨t, by simpa [deliver, CreateProcessNotifyRoutine] using ht, h1, h4 hc, h2,
      by simpa [childResolved] using h3⟩
  | imageLoad FullImageName ProcessId host =>
    simp only [zeroedPool, beq_iff_eq] at hz
    obtain ⟨t, ht, h1, h2, h3, h4⟩ := load_spec s host FullImageName ProcessId fuel h hc hd hfuel hz
    exact ⟨t, by simpa [deliver] using ht, h1, h4, h2, by simpa [childResolved] using h3⟩

/-- A sequence of events on a well linked store, on a zeroed pool. -/
theorem replay_spec (fuel : Nat) :
    ∀ (events : List Event) (s : ImageHistoryFilter),
      WellLinked s = true → cleanPool s.pool = true → s.destroying = false →
      s.pool.length + events.length ≤ fuel →
      (∀ x ∈ events, allocationsSucceed x = true ∧ zeroedPool x = true) →
      ∃ t, replay fuel s events = some t ∧ WellLinked t = true ∧ cleanPool t.pool = true
        ∧ t.destroying = false
        ∧ t.pool.length = s.pool.length + (events.filter childResolved).length := by
  intro events
  induction events with
  | nil => intro s h hc hd _ _; exact ⟨s, rfl, h, hc, hd, by simp⟩
  | cons e rest ih =>
    intro s h hc hd hfuel ha
    simp only [List.length_cons] at hfuel
    obtain ⟨s1, hs1, h1, hc1, h2, h3⟩ := deliver_spec s e fuel h hc hd (by omega)
      (ha e (by simp)).1 (ha e (by simp)).2
    have hle : s1.pool.length ≤ s.pool.length + 1 := by
      rw [h3]; split_ifs <;> omega
    obtain ⟨t, ht, h4, hc4, h5, h6⟩ := ih s1 h1 hc1 h2 (by omega)
      (fun x hx => ha x (by simp [hx]))
    refine ⟨t, by simp [replay, hs1, ht], h4, hc4, h5, ?_⟩
    rw [h6, h3]
    cases hres : childResolved e with
    | true => simp [List.filter, hres]; omega
    | false => simp [List.filter, hres]

/-- On a host whose pool blocks read zero where the routines leave a pointer
unassigned, replaying events on the empty store keeps one record per resolved
create event: the process list before a further event `e` has as many records
as there were resolved creates, a resolved create adds exactly one address at
its end, and every other event leaves it as it is. -/
theorem replay_on_zeroed_pool (events : List Event) (e : Event)
    (fuel : Nat) (hfuel : events.length + 1 ≤ fuel)
    (halloc : ∀ x ∈ events ++ [e], allocationsSucceed x = true ∧ zeroedPool x = true) :
    ∃ s t before,
      replay fuel ImageHistoryFilter.empty events = some s
        ∧ processList fuel s = some before
        ∧ before.length = (events.filter childResolved).length
        ∧ deliver fuel s e = some t
        ∧ (∀ ParentId ProcessId host, e = .create ParentId ProcessId host →
            (GetProcessImageFileName host.processName).1 = true →
            ∃ a r, processList fuel t = some (before ++ [a]) ∧ a ∉ before
              ∧ t.pool[a]? = some r ∧ r.ProcessId = ProcessId ∧ r.ParentId = ParentId
              ∧ r.ProcessTerminated = false)
        ∧ (childResolved e = false → processList fuel t = some before) := by
  obtain ⟨s, hs, h1, hc1, h2, h3⟩ := replay_spec fuel events ImageHistoryFilter.empty
    (by decide) (by decide) rfl
    (by simp [ImageHistoryFilter.empty]; omega) (fun x hx => halloc x (by simp [hx]))
  have hlen : s.pool.length = (events.filter childResolved).length := by
    simpa [ImageHistoryFilter.empty] using h3
  have hle : s.pool.length ≤ events.length := by
    rw [hlen]; exact List.length_filter_le _ _
  obtain ⟨t, ht, h4, _, h5, h6⟩ := deliver_spec s e fuel h1 hc1 h2 (by omega)
    (halloc e (by simp)).1 (halloc e (by simp)).2
  have hpl := processList_wellLinked s fuel h1 (by omega)
  have hplt := processList_wellLinked t fuel h4 (by rw [h6]; split_ifs <;> omega)
  refine ⟨s, t, List.range s.pool.length, hs, hpl, by simp [hlen], ht, ?_, ?_⟩
  · intro ParentId ProcessId host he hres
    subst he
    have hae := (halloc (.create ParentId ProcessId host) (by simp)).1
    simp only [allocationsSucceed, Bool.and_eq_true] at hae
    obtain ⟨_, _, g3, _⟩ := add_spec s host ProcessId ParentId h1 h2 hae.1 hae.2
    have hte : t = AddProcessToHistory s host ProcessId ParentId := by
      simpa [deliver, CreateProcessNotifyRoutine] using ht.symm
    obtain ⟨gl, r, gr, gr1, gr2, gr3⟩ := g3 hres
    refine ⟨s.pool.length, r, ?_, by simp, by rw [hte]; exact gr, gr1, gr2, gr3⟩
    rw [hplt, hte, gl, List.range_succ]
  · intro hres
    rw [hplt, h6, hres]
    simp

/-- What the walk of the summary query yields while every name copy succeeds
(at most `2 ^ 16` records, `MaxProcessSummaries >= 1`): the summaries of the
records at the positions `SkipCount`, `SkipCount + 1`, ... of `blinkOrder`, at
most `MaxProcessSummaries` of them. -/
theorem summaries_follow_blink_order (s : ImageHistoryFilter) (h : WellLinked s = true)
    (hd : s.destroying = false) (fuel SkipCount MaxProcessSummaries : Nat)
    (hfuel : s.pool.length ≤ fuel) (hn : s.pool.length ≤ USHORT_SIZE)
    (hskip : SkipCount < USHORT_SIZE) (hmax1 : 1 ≤ MaxProcessSummaries)
    (hmax : MaxProcessSummaries < USHORT_SIZE)
    (hfit : ∀ e ∈ s.pool, NT_SUCCESS (fillSummary e).1 = true) :
    ∃ count writes,
      GetProcessHistorySummary fuel s SkipCount MaxProcessSummaries = some (count, writes)
        ∧ writes.map Prod.snd
            = (((blinkOrder s.pool).drop SkipCount).take MaxProcessSummaries).map
                fun e => (fillSummary e).2 := by
  rw [summary_eq_summarize s h hd fuel SkipCount MaxProcessSummaries hfuel]
  rw [summarize_skip SkipCount MaxProcessSummaries 0 [] hskip (by omega) _ 0 (by omega)]
  by_cases hlen : (blinkOrder s.pool).length ≤ SkipCount - 0
  · rw [if_pos hlen]
    refine ⟨0, [], rfl, ?_⟩
    rw [List.drop_of_length_le (by simpa using hlen)]
    simp
  · rw [if_neg hlen]
    have hne : (blinkOrder s.pool).drop SkipCount ≠ [] := by
      intro hnil
      have := congrArg List.length hnil
      rw [List.length_drop, List.length_nil] at this
      omega
    rw [Nat.sub_zero, summarize_all_fit SkipCount MaxProcessSummaries hmax _ SkipCount 0 [] hne
      (fun e he => (pathFits_iff e).2 (hfit e ((blinkOrder_mem _ _).1 (List.mem_of_mem_drop he)))) (le_refl _)
      (by rw [List.length_drop, blinkOrder_length]; omega) (by omega)]
    refine ⟨_, _, rfl, ?_⟩
    simp [slotsFrom_snd]

/-! ## Teardown -/

/-- C9: once the teardown flag is set, `AddProcessToHistory`,
`TerminateProcessInHistory` and `LoadImageNotifyRoutine` return at once and
leave the store as it is, and `GetProcessHistorySummary` returns 0 and stores no
summary, whatever the store, the arguments and the answers of the host. -/
theorem teardown_stops_every_routine (s : ImageHistoryFilter) (h : s.destroying = true)
    (fuel : Nat) (createHost : CreateHost) (loadHost : LoadHost)
    (FullImageName : Option UNICODE_STRING) (ProcessId ParentId SkipCount MaxProcessSummaries : Nat) :
    AddProcessToHistory s createHost ProcessId ParentId = s
      ∧ TerminateProcessInHistory fuel s ProcessId = some s
      ∧ LoadImageNotifyRoutine fuel s loadHost FullImageName ProcessId = some s
      ∧ GetProcessHistorySummary fuel s SkipCount MaxProcessSummaries = some (0, []) := by
  refine ⟨?_, ?_, ?_, ?_⟩
  · simp [AddProcessToHistory, h]
  · simp [TerminateProcessInHistory, h]
  · simp [LoadImageNotifyRoutine, h]
  · simp [GetProcessHistorySummary, h]

/-- Witness of C9 on a torn down store holding one record, with no fuel at
all. -/
theorem teardown_stops_every_routine_witness :
    tornDown.destroying = true
      ∧ AddProcessToHistory tornDown createWithoutName 200 4 = tornDown
      ∧ TerminateProcessInHistory 0 tornDown 100 = some tornDown
      ∧ LoadImageNotifyRoutine 0 tornDown sampleLoadHost none 100 = some tornDown
      ∧ GetProcessHistorySummary 0 tornDown 0 5 = some (0, []) :=
  ⟨rfl, teardown_stops_every_routine tornDown rfl 0 createWithoutName sampleLoadHost none 100 4 0 5⟩

/-! ## Evaluations at concrete stores -/

/-- C10: when the size query of `GetProcessImageFileName` reports success, the
routine leaves through `Exit` with a success status and a `NULL` name, so it
returns `TRUE` without a path and `AddProcessToHistory` links a record whose
`ProcessImageFileName` is `NULL`. -/
theorem success_without_image_path :
    GetProcessImageFileName sizeQuerySucceeds = (true, none)
      ∧ (AddProcessToHistory ImageHistoryFilter.empty createWithoutName 100 4).pool.map
          (fun e => (e.ProcessId, e.ProcessImageFileName)) = [(100, none)] := by
  decide

/-- C1: an image load for the process 200, with no image name, delivered to a
store whose only record is the process 100 (its `ImageLoadHistory` reading
`NULL`): the search loop ends after one lap with the head in
`currentProcessHistory`, which is not `NULL`, and the image load record is
attached to the record of the process 100. -/
theorem unmatched_image_load_lands_on_head :
    oneRecord.pool.map (fun e => (e.ProcessId, e.ImageLoadHistory)) = [(100, .null)]
      ∧ (LoadImageNotifyRoutine 1 oneRecord sampleLoadHost none 200).map
          (fun t => t.pool.map fun e => (e.ProcessId, e.ImageLoadHistory))
        = some [(100, .valid [{ ImageFileName := .null, CallerStackHistory := [],
                                CallerStackHistorySize := 0 }])] := by
  decide

/-- C2: the identifier 100 is held by the head (terminated) and by a newer
record (running); an exit event for 100 stops at the head, and the newer record
stays unterminated. -/
theorem exit_marks_head_not_newest :
    reusedPid.pool.map (fun e => (e.ProcessId, e.ProcessTerminated)) = [(100, true), (100, false)]
      ∧ (TerminateProcessInHistory 2 reusedPid 100).map
          (fun t => t.pool.map fun e => (e.ProcessId, e.ProcessTerminated))
        = some [(100, true), (100, false)] := by
  decide

/-- C4: with ten records, `SkipCount = 3` and `MaxProcessSummaries = 4` the
routine returns 4 and stores into the slots 3, 4, 5 and 6: slots 0 to 2 are not
written and slots 4 to 6 lie beyond the four elements the array allows for. -/
theorem summary_slots_follow_the_index :
    (GetProcessHistorySummary 10 tenRecords 3 4).map (fun r => (r.1, r.2.map Prod.fst))
      = some (4, [3, 4, 5, 6]) := by
  decide

/-- C5: with one record and `MaxProcessSummaries = 0` the body of the loop
runs once before the bound is looked at: the routine returns 1 and stores into
slot 0. -/
theorem summary_count_exceeds_zero_max :
    (GetProcessHistorySummary 1 oneRecord 0 0).map (fun r => (r.1, r.2.map Prod.fst))
      = some (1, [0]) := by
  decide

/-- C7: the copy buffer of `LoadImageNotifyRoutine` has `Length + 1` bytes, one
wide character short of the name and its null, so for every name the copy
reports a failure and the event is dropped. For the image load of `a.dll` for
the process 100, delivered after its create event with every allocation
succeeding, the copy reports `STATUS_BUFFER_OVERFLOW` and the image load list
of the record stays `NULL`. -/
theorem named_image_load_is_dropped :
    (∀ name : UNICODE_STRING,
        NT_SUCCESS (RtlStringCbCopyUnicodeString (name.Length + 1) name).1 = false)
      ∧ RtlStringCbCopyUnicodeString ((sampleName a_dll).Length + 1) (sampleName a_dll)
        = (STATUS_BUFFER_OVERFLOW, some [97, 46, 100, 108, 0])
      ∧ (replay 1 ImageHistoryFilter.empty
            [sampleCreate 4 100 p_exe, .imageLoad (some (sampleName a_dll)) 100 sampleLoadHost,
              .exit 4 100]).map
          (fun t => t.pool.map fun e => (e.ProcessId, e.ProcessTerminated, e.ImageLoadHistory))
        = some [(100, true, .null)] :=
  ⟨copy_without_room_fails, by decide, by decide⟩

/-! ## Results on the summary query -/

/-- C3: the walk of `GetProcessHistorySummary` starts on the head, which is the
first record inserted, before it follows `Blink` to the newest one. With the
ten records of the processes 100 to 109, `SkipCount = 3` and
`MaxProcessSummaries = 4` the summaries are those of the processes 107, 106,
105 and 104 (`r7 .. r4`), not those of the positions 3 to 6 of the reverse
insertion sequence (`r6 .. r3`). -/
theorem ten_records_skip_three_max_four :
    (GetProcessHistorySummary 10 tenRecords 3 4).map (fun r => r.2.map fun w => w.2.ProcessId)
        = some [107, 106, 105, 104]
      ∧ (GetProcessHistorySummary 10 tenRecords 3 4).map (fun r => r.2.map Prod.snd)
        ≠ some (((tenRecords.pool.reverse.drop 3).take 4).map fun e => (fillSummary e).2) := by
  decide

/-- C8: `AddProcessToHistory` never assigns `ImageLoadHistory`, so the record
keeps what the pool block held there. After `create (4 -> 100, p.exe)` on a block
holding the bits `0xDEADBEEF`, every allocation succeeding, the store has its
one record, with that stale pointer; an image load for the process 100 with no
image name then finds the pointer not `NULL` and calls `InsertTailList` on it,
so the replay does not end in a store, whatever the fuel. -/
theorem image_load_follows_stale_pointer :
    (replay 1 ImageHistoryFilter.empty [sampleCreateOn 3735928559 4 100 p_exe]).map
        (fun t => t.pool.map fun e => (e.ProcessId, e.ListEntry, e.ImageLoadHistory))
      = some [(100, { Flink := 0, Blink := 0 }, .wild 3735928559)]
    ∧ ∀ fuel, replay fuel ImageHistoryFilter.empty
        [sampleCreateOn 3735928559 4 100 p_exe, .imageLoad none 100 sampleLoadHost] = none := by
  refine ⟨by decide, ?_⟩
  intro fuel
  cases fuel <;> rfl

end PeaceMaker
